import Mathlib

/-!
Shallow embedding of the three data-import scripts of the repository
(`scripts/import_roots_from_morphology.py`, `scripts/populate_etymology.py`,
`scripts/populate_root_meanings.py`).

Strings are Lean `String`s (a structure over `List Char`); the Python string
operations used by the scripts (`str.split` on a one-character separator,
`str.strip`, `str.lower`, `'-'.join`, `int(...)`, truthiness) are modelled
by executable functions on the underlying character lists.  Caveats, noted
at each definition: Python's `str.strip` and `int` also accept non-ASCII
whitespace and digit forms, and `str.lower` lowercases beyond ASCII; none of
the inputs relevant here (ASCII digits, ASCII whitespace, Arabic letters,
which have no case) are affected.  The SQLite tables are modelled
as lists of rows; an `UPDATE ... WHERE k` is a `List.map` that rewrites the
matching rows, and its `rowcount` is the number of matching rows, which is
what `sqlite3`'s `cursor.rowcount` reports for an UPDATE.  Fallible Python
code (raising `ValueError`, `ZeroDivisionError`, `EOFError`) is modelled
with `Except`.
-/

namespace QuranScripts

/-- Exceptions the modelled Python code can raise. -/
inductive PyError where
  | valueError
  | zeroDivisionError
  | eofError
deriving DecidableEq

instance {ε α : Type} [DecidableEq ε] [DecidableEq α] : DecidableEq (Except ε α) := fun x y =>
  match x, y with
  | .ok a, .ok b =>
    if h : a = b then isTrue (congrArg Except.ok h) else isFalse (fun hh => h (Except.ok.inj hh))
  | .error a, .error b =>
    if h : a = b then isTrue (congrArg Except.error h)
    else isFalse (fun hh => h (Except.error.inj hh))
  | .ok _, .error _ => isFalse (fun hh => Except.noConfusion hh)
  | .error _, .ok _ => isFalse (fun hh => Except.noConfusion hh)

/-- ASCII whitespace, the characters `str.strip`/`int` strip that occur in
this data (Python also strips other Unicode whitespace, not modelled). -/
def isPySpace (c : Char) : Bool :=
  c = ' ' || c = '\t' || c = '\n' || c = '\r' || c = '\x0b' || c = '\x0c'

/-- Python `s.strip()` restricted to ASCII whitespace. -/
def pyStrip (s : String) : String :=
  String.mk (((s.data.dropWhile isPySpace).reverse.dropWhile isPySpace).reverse)

/-- Python `s.split(sep)` for a one-character separator, on character
lists: every occurrence of `sep` is a cut point, `"".split(sep) = [""]`. -/
def splitOnChar (sep : Char) : List Char → List (List Char)
  | [] => [[]]
  | c :: rest =>
    match splitOnChar sep rest with
    | [] => if c = sep then [[], []] else [[c]]
    | g :: gs => if c = sep then [] :: g :: gs else (c :: g) :: gs

/-- Python `s.split(sep)` returning strings. -/
def splitLine (sep : Char) (s : String) : List String :=
  (splitOnChar sep s.data).map String.mk

/-- Whether `p` is an initial segment of `s` (Python `s.startswith(p)`). -/
def startsWithChars : List Char → List Char → Bool
  | [], _ => true
  | _ :: _, [] => false
  | p :: ps, c :: cs => p = c && startsWithChars ps cs

/-- Grammar of the digit part of a Python integer literal after its first
digit: further digits, with single underscores allowed between digits. -/
def digitsRest : List Char → Bool
  | [] => true
  | '_' :: [] => false
  | '_' :: c :: rest => c.isDigit && digitsRest rest
  | c :: rest => c.isDigit && digitsRest rest

/-- A non-empty ASCII digit sequence with optional internal underscores,
as accepted by Python `int` (Unicode digits not modelled). -/
def digitsOK : List Char → Bool
  | [] => false
  | c :: rest => c.isDigit && digitsRest rest

/-- Numeric value of a digit-and-underscore sequence. -/
def digitsToNat (l : List Char) : Nat :=
  l.foldl (fun acc c => if c = '_' then acc else acc * 10 + (c.toNat - '0'.toNat)) 0

/-- Python `int(s)` on a string: strip whitespace, optional sign, then a
digit sequence; anything else raises `ValueError`. -/
def pyInt (s : String) : Except PyError Int :=
  match (pyStrip s).data with
  | '+' :: rest => if digitsOK rest then .ok (digitsToNat rest) else .error .valueError
  | '-' :: rest => if digitsOK rest then .ok (-(digitsToNat rest : Int)) else .error .valueError
  | rest => if digitsOK rest then .ok (digitsToNat rest) else .error .valueError

/-- Leftmost match of the pattern `ROOT:([^|]+)` (`re.search` in
`import_roots_from_morphology.py` line 61): scan for the first position
where `ROOT:` is followed by at least one character other than `|`, and
capture the maximal run of such characters. -/
def rootSearch : List Char → Option (List Char)
  | [] => none
  | c :: rest =>
    if startsWithChars "ROOT:".data (c :: rest) then
      match (c :: rest).drop 5 with
      | [] => rootSearch rest
      | a :: after =>
        if a = '|' then rootSearch rest
        else some ((a :: after).takeWhile (fun x => !(x = '|')))
    else rootSearch rest

/-- Model of `format_root` (`import_roots_from_morphology.py` lines 26-31): `None`
or the empty string give `None`; otherwise `'-'.join(root)` puts a dash
between every two consecutive characters, which is `List.intersperse`. -/
def format_root (root : Option String) : Option String :=
  match root with
  | none => none
  | some s => if s = "" then none else some (String.mk (s.data.intersperse '-'))

/-- A word coordinate (sura, ayah, word_position); the script converts the
location components with Python `int`, so the components are integers. -/
abbrev Key := Int × Int × Int

/-- Processing of one line of the loop body of `parse_morphology`
(lines 40-69): `.ok none` means the line is skipped or carries no ROOT tag,
`.ok (some (k, v))` means it offers the formatted root `v` for key `k`,
`.error` means the `int(...)` conversion raised. -/
def processLine (line : String) : Except PyError (Option (Key × Option String)) :=
  if line = "" || startsWithChars "#".data line.data then .ok none
  else
    let parts := splitLine '\t' line
    if parts.length < 4 then .ok none
    else
      let locParts := splitLine ':' (parts.getD 0 "")
      if locParts.length < 3 then .ok none
      else
        match pyInt (locParts.getD 0 ""), pyInt (locParts.getD 1 ""), pyInt (locParts.getD 2 "") with
        | .error e, _, _ => .error e
        | .ok _, .error e, _ => .error e
        | .ok _, .ok _, .error e => .error e
        | .ok sura, .ok ayah, .ok wordPos =>
          match rootSearch (parts.getD 3 "").data with
          | some cap => .ok (some ((sura, ayah, wordPos), format_root (some (String.mk cap))))
          | none => .ok none

/-- Lookup in the insertion-ordered association list modelling the Python
dict `word_roots`. -/
def lookupKey (k : Key) : List (Key × Option String) → Option (Option String)
  | [] => none
  | p :: rest => if p.1 = k then some p.2 else lookupKey k rest

/-- The loop of `parse_morphology`: process the lines in order; a key is
inserted only if not already present (`if key not in word_roots`,
line 68 of the script), so the first line carrying a ROOT tag for a key
wins. -/
def parseLines : List String → List (Key × Option String) →
    Except PyError (List (Key × Option String))
  | [], acc => .ok acc
  | line :: rest, acc =>
    match processLine line with
    | .error e => .error e
    | .ok none => parseLines rest acc
    | .ok (some (k, v)) =>
      parseLines rest (if lookupKey k acc = none then acc ++ [(k, v)] else acc)

/-- The lines the script iterates over: `data.strip().split('\n')`. -/
def linesOf (data : String) : List String :=
  splitLine '\n' (pyStrip data)

/-- Model of `parse_morphology` (lines 33-71): returns the insertion-ordered
mapping from word coordinates to formatted roots, or the first raised
exception. -/
def parse_morphology (data : String) : Except PyError (List (Key × Option String)) :=
  parseLines (linesOf data) []

/-- The formatted root of the first line, in file order, that offers a
ROOT tag for key `k` (what the first-write-wins dict construction should
produce for `k`). -/
def firstRoot (lines : List String) (k : Key) : Option (Option String) :=
  match lines with
  | [] => none
  | line :: rest =>
    match processLine line with
    | .ok (some kv) => if kv.1 = k then some kv.2 else firstRoot rest k
    | _ => firstRoot rest k

/-- A row of the `word_translations` table.  `etymology` is nullable
(`none` models SQL NULL); the update statements never touch the other
columns, and `id` only orders the interactive selection. -/
structure Row where
  id : Int
  sura : Int
  ayah : Int
  word_position : Int
  arabic_text : String
  translation : String
  transliteration : String
  etymology : Option String
deriving DecidableEq

/-- The WHERE clause of the update in `update_database` (lines 82-87 of
`import_roots_from_morphology.py`): match on (sura, ayah, word_position). -/
def matchKey (k : Key) (r : Row) : Bool :=
  r.sura = k.1 && r.ayah = k.2.1 && r.word_position = k.2.2

/-- One iteration of the loop of `update_database` (lines 81-91): run the
keyed UPDATE (every matching row gets the new etymology; `rowcount` is the
number of matching rows) and bump `updated` when `rowcount > 0`, else
`not_found`.  State is (table, updated, not_found). -/
def updateStep (st : List Row × Nat × Nat) (e : Key × Option String) :
    List Row × Nat × Nat :=
  (st.1.map (fun r => if matchKey e.1 r then { r with etymology := e.2 } else r),
   if st.1.countP (matchKey e.1) > 0 then (st.2.1 + 1, st.2.2) else (st.2.1, st.2.2 + 1))

/-- Model of `update_database` (lines 73-96): apply every mapping entry in order and
return the committed table with the (updated, not_found) counters. -/
def update_database (m : List (Key × Option String)) (t : List Row) :
    List Row × Nat × Nat :=
  m.foldl updateStep (t, 0, 0)

/-- Python truthiness of `row.get('etymology')`: false for an absent key
(`None`) and for the empty string. -/
def pyTruthy (o : Option String) : Bool :=
  match o with
  | none => false
  | some s => !(s = "")

/-- One iteration of the loop of `update_from_json`
(`populate_etymology.py` lines 69-74): broadcast UPDATE of every row whose
`arabic_text` matches, accumulating `cursor.rowcount`. -/
def jsonStep (st : List Row × Nat) (e : String × String) : List Row × Nat :=
  (st.1.map (fun r => if r.arabic_text = e.1 then { r with etymology := some e.2 } else r),
   st.2 + st.1.countP (fun r => r.arabic_text = e.1))

/-- Model of `update_from_json` (lines 60-78): apply every mapping entry of the JSON
object in order; returns the committed table and the reported count. -/
def update_from_json (ms : List (String × String)) (t : List Row) : List Row × Nat :=
  ms.foldl jsonStep (t, 0)

/-- A row of the input CSV as `csv.DictReader` yields it: `etymology` is
`none` when the column is absent.  The claims presuppose the
`arabic_text` column is present (its absence would raise KeyError, a case
outside every claim). -/
structure CSVRow where
  arabic_text : String
  etymology : Option String
deriving DecidableEq

/-- One iteration of the loop of `update_from_csv` (lines 88-94): rows
whose etymology is absent or empty are skipped (`if row.get('etymology')`),
otherwise the same broadcast UPDATE as JSON mode runs, accumulating
`cursor.rowcount`. -/
def csvStep (st : List Row × Nat) (row : CSVRow) : List Row × Nat :=
  if pyTruthy row.etymology then
    (st.1.map (fun r =>
        if r.arabic_text = row.arabic_text then { r with etymology := row.etymology } else r),
     st.2 + st.1.countP (fun r => r.arabic_text = row.arabic_text))
  else st

/-- Model of `update_from_csv` (lines 80-98): apply every CSV row in order; returns
the committed table and the reported count. -/
def update_from_csv (rows : List CSVRow) (t : List Row) : List Row × Nat :=
  rows.foldl csvStep (t, 0)

/-- Python `s.lower()` restricted to ASCII (`Char.toLower` only lowercases
`A`-`Z`; Arabic letters have no case, matching Python). -/
def pyLower (s : String) : String :=
  String.mk (s.data.map Char.toLower)

/-- The loop of `interactive_mode` (`populate_etymology.py` lines
119-135) followed by the final commit (line 137): `words` is the result of
the selection query (distinct (arabic_text, translation, transliteration)
triples of rows missing etymology, at most 100), `inputs` the successive
responses on standard input.  Each prompt strips its response (line 124);
a stripped-lowercased `quit` breaks out of the loop — the table reached so
far is still committed — ; `skip` or an empty response continues without
writing; anything else is broadcast-written to every row sharing the
word's `arabic_text`.  Running out of input makes `input()` raise
EOFError. -/
def interactive_mode (words : List (String × String × String)) (inputs : List String)
    (t : List Row) : Except PyError (List Row) :=
  match words, inputs with
  | [], _ => .ok t
  | _ :: _, [] => .error .eofError
  | (arabic, _, _) :: ws, inp :: ins =>
    let etymology := pyStrip inp
    if pyLower etymology = "quit" then .ok t
    else if pyLower etymology = "skip" || etymology = "" then interactive_mode ws ins t
    else interactive_mode ws ins
      (t.map (fun r =>
        if r.arabic_text = arabic then { r with etymology := some etymology } else r))

/-- Whether a row counts as having etymology in the statistics queries:
`etymology IS NOT NULL AND etymology != ''`. -/
def hasEtym (r : Row) : Bool :=
  match r.etymology with
  | none => false
  | some s => !(s = "")

/-- Python true division, raising ZeroDivisionError on a zero denominator.
Real division is modelled exactly over the rationals; no claim depends on
float rounding. -/
def pyDivQ (a b : ℚ) : Except PyError ℚ :=
  if b = 0 then .error .zeroDivisionError else .ok (a / b)

/-- The report of `show_stats`: the four counts and the two percentages. -/
structure Stats where
  total : Nat
  unique_words : Nat
  with_etymology : Nat
  pct_entries : ℚ
  unique_with_etymology : Nat
  pct_unique : ℚ
deriving DecidableEq

/-- Model of `show_stats` (`populate_etymology.py` lines 140-162): the four COUNT
queries, then the two percentages `100*with_etymology/total` and
`100*unique_with_etymology/unique_words`, computed with no guard against a
zero denominator. -/
def show_stats (t : List Row) : Except PyError Stats := do
  let total := t.length
  let with_etymology := (t.filter hasEtym).length
  let unique_words := ((t.map (fun r => r.arabic_text)).dedup).length
  let unique_with_etymology := (((t.filter hasEtym).map (fun r => r.arabic_text)).dedup).length
  let p1 ← pyDivQ (100 * with_etymology) total
  let p2 ← pyDivQ (100 * unique_with_etymology) unique_words
  pure ⟨total, unique_words, with_etymology, p1, unique_with_etymology, p2⟩

/-- A row of the `root_meanings` table, without the surrogate `id` column
(INSERT OR REPLACE assigns a fresh id on every replace, so row identity in
the claims is the five content columns keyed on the UNIQUE `root`). -/
structure RootMeaning where
  root : String
  primary_meaning : String
  extended_meaning : Option String
  quran_usage : Option String
  notes : Option String
deriving DecidableEq

/-- Semantics of `INSERT OR REPLACE` into a table with `root` UNIQUE: the existing row
with the same root, if any, is deleted and the new row inserted. -/
def insertOrReplace (t : List RootMeaning) (e : RootMeaning) : List RootMeaning :=
  (t.filter (fun r => !(r.root = e.root))) ++ [e]

/-- The literal `ROOT_MEANINGS` catalog of `populate_root_meanings.py`
(lines 15-155), as (root, primary_meaning, extended_meaning, quran_usage,
notes).  The long prose fields are abbreviated to their opening words;
every claim about the seeder depends only on the root keys being the
distinct strings they are, which are reproduced exactly. -/
def ROOT_MEANINGS : List RootMeaning :=
  [⟨"ك-ف-ر", "to cover, to conceal, to hide", some "Originally meant to cover something", some "In the Quran, refers to rejecting", some "In classical Arabic, a farmer"⟩,
   ⟨"ر-ح-م", "mercy, compassion, womb", some "The root connects mercy with the womb", some "the names Al-Rahman and Al-Rahim", some "The connection between womb and mercy"⟩,
   ⟨"س-م-و", "to be high, to rise, name, sky", some "Connects the concepts of elevation", some "Used for sky, names, and elevation", none⟩,
   ⟨"ع-ل-م", "to know, knowledge, sign, world", some "Encompasses knowing, teaching", some "Al-Alim is one of the names of Allah", some "The word ulama and alam share this root"⟩,
   ⟨"ح-م-د", "to praise, to thank, to commend", some "Praise that comes from recognizing", some "Al-Hamdulillah opens Surah Al-Fatihah", some "Unlike shukr, hamd is praise"⟩,
   ⟨"أ-ل-ه", "deity, god, to worship, to be bewildered", some "Originally implied being bewildered", some "Allah is the proper name of God", some "The root suggests that humans turn"⟩,
   ⟨"ص-ل-و", "prayer, connection, supplication", some "Implies a close connection", some "Salah is not just ritual prayer", none⟩,
   ⟨"ع-ب-د", "to worship, to serve, servant, slave", some "Complete submission and service", some "Ibadah means complete submission", some "True freedom in Islam"⟩,
   ⟨"ه-د-ي", "to guide, guidance, gift", some "Leading someone gently", some "Al-Hadi is one of the names of Allah", some "Hidayah is considered the greatest gift"⟩,
   ⟨"ق-ر-ء", "to read, to recite, to gather", some "Originally meant to gather", some "The Quran literally means the recitation", none⟩,
   ⟨"أ-م-ن", "to be safe, security, faith, trust", some "Safety, security, and trust", some "Iman provides security for the heart", some "The connection between faith and security"⟩,
   ⟨"ج-ن-ن", "to cover, to hide, to be concealed", some "Anything hidden or concealed", some "Jinn are hidden beings", some "Many seemingly different words"⟩,
   ⟨"ن-و-ر", "light, illumination, to enlighten", some "Physical and spiritual light", some "Allah is described as the Light", none⟩,
   ⟨"ظ-ل-م", "darkness, injustice, oppression, to wrong", some "Darkness and injustice share a root", some "Zulm is putting something in the wrong place", some "Shirk is called the greatest zulm"⟩,
   ⟨"ش-ك-ر", "to thank, gratitude, to appreciate", some "Recognizing and acknowledging blessings", some "Ash-Shakur is one of the names of Allah", some "Different from hamd"⟩,
   ⟨"ت-و-ب", "to return, to repent, to turn back", some "Repentance literally means returning", some "At-Tawwab is one of the names of Allah", some "The door of tawbah is always open"⟩,
   ⟨"ذ-ك-ر", "to remember, to mention, male", some "Remembrance, mention, and masculinity", some "Dhikr is one of the most emphasized acts", none⟩,
   ⟨"ف-ت-ح", "to open, victory, conquest, to begin", some "Opening can be physical or abstract", some "Al-Fattah is one of the names of Allah", none⟩,
   ⟨"س-ل-م", "peace, safety, submission, soundness", some "Peace comes through submission", some "Islam, Muslim, and Salam share this root", some "The greeting Assalamu Alaikum"⟩,
   ⟨"ق-ل-ب", "heart, to turn, to flip, to change", some "The heart is called qalb", some "The heart is the spiritual center", some "The Prophet would pray"⟩]

/-- Model of `populate_root_meanings` (lines 157-189): upsert every catalog entry in
order into the existing table (created empty if absent). -/
def populate_root_meanings (t : List RootMeaning) : List RootMeaning :=
  ROOT_MEANINGS.foldl insertOrReplace t

/-! Helper lemmas. -/

theorem intersperse_ne_nil (sep : Char) (l : List Char) (h : l ≠ []) :
    l.intersperse sep ≠ [] := by
  match l with
  | [] => exact absurd rfl h
  | [a] => simp [List.intersperse_singleton]
  | a :: b :: t => simp [List.intersperse_cons_cons]

theorem length_intersperse_eq (sep : Char) (l : List Char) :
    (l.intersperse sep).length = 2 * l.length - 1 := by
  induction l with
  | nil => simp [List.intersperse]
  | cons a t ih =>
    cases t with
    | nil => simp [List.intersperse_singleton]
    | cons b t2 =>
      rw [List.intersperse_cons_cons]
      simp only [List.length_cons] at ih ⊢
      omega

theorem count_intersperse_eq (l : List Char) (h : l ≠ []) (h2 : '-' ∉ l) :
    ((l.intersperse '-').count '-') = l.length - 1 := by
  induction l with
  | nil => exact absurd rfl h
  | cons a t ih =>
    have ha : ¬(a = '-') := fun hh => h2 (hh ▸ List.mem_cons_self a t)
    cases t with
    | nil => simp [List.intersperse_singleton, List.count_cons, ha]
    | cons b t2 =>
      have h2' : '-' ∉ b :: t2 := fun hm => h2 (List.mem_cons_of_mem a hm)
      rw [List.intersperse_cons_cons, List.count_cons, List.count_cons]
      have hih := ih (by simp) h2'
      simp only [List.length_cons] at hih ⊢
      simp only [beq_iff_eq, ha, if_false, if_true]
      omega

/-- Claim C4: `format_root` inserts a dash between every consecutive pair
of characters of a non-empty root (a root of `n` dash-free letters yields
`n - 1` dashes and a string of `2 * n - 1` characters, e.g.
`format_root "رحم" = "ر-ح-م"`), and maps the empty string and `None` to
`None`, never to an empty string. -/
theorem format_root_spec :
    format_root none = none ∧
    format_root (some "") = none ∧
    format_root (some "رحم") = some "ر-ح-م" ∧
    (∀ s : String, ¬s = "" →
        format_root (some s) = some (String.mk (s.data.intersperse '-'))) ∧
    (∀ s : String, ¬s = "" → '-' ∉ s.data →
        (String.mk (s.data.intersperse '-')).data.count '-' = s.length - 1 ∧
        (String.mk (s.data.intersperse '-')).length = 2 * s.length - 1) := by
  refine ⟨rfl, rfl, by decide, ?_, ?_⟩
  · intro s hs
    simp [format_root, hs]
  · intro s hs hd
    have hdata : s.data ≠ [] := by
      intro hh
      exact hs (by cases s; simp_all)
    constructor
    · exact count_intersperse_eq s.data hdata hd
    · exact length_intersperse_eq '-' s.data

/-- Witness for C4 at the concrete root `رحم`. -/
theorem format_root_spec_witness :
    format_root (some "رحم") = some (String.mk ("رحم".data.intersperse '-')) ∧
    (String.mk ("رحم".data.intersperse '-')).data.count '-' = "رحم".length - 1 ∧
    (String.mk ("رحم".data.intersperse '-')).length = 2 * "رحم".length - 1 :=
  ⟨format_root_spec.2.2.2.1 "رحم" (by decide),
   format_root_spec.2.2.2.2 "رحم" (by decide) (by decide)⟩

theorem pyDivQ_ok (a b : ℚ) (h : ¬b = 0) : pyDivQ a b = .ok (a / b) := if_neg h

/-- Counterexample to claim C1: on an empty `word_translations` table the
statistics mode does not complete with 0 percentages — the unguarded
`100*with_etymology/total` raises ZeroDivisionError. -/
theorem show_stats_empty_table_raises :
    show_stats ([] : List Row) = .error .zeroDivisionError := by decide

/-- Claim C1 amended: statistics on an empty table raise a division error
(the percentage computation divides by the row count with no guard); on
any non-empty table both denominators are positive and the report is
produced. -/
theorem show_stats_division_guard_absent :
    show_stats ([] : List Row) = .error .zeroDivisionError ∧
    ∀ (r : Row) (rs : List Row), ∃ st, show_stats (r :: rs) = .ok st := by
  refine ⟨by decide, ?_⟩
  intro r rs
  have htot : ¬(((r :: rs).length : ℚ) = 0) := by
    simp only [List.length_cons]
    push_cast
    positivity
  have huniq : ¬(((((r :: rs).map (fun r => r.arabic_text)).dedup).length : ℚ) = 0) := by
    simp [Nat.cast_eq_zero, List.length_eq_zero]
  simp only [show_stats, pyDivQ_ok _ _ htot, pyDivQ_ok _ _ huniq]
  exact ⟨_, rfl⟩

/-- Counterexample to claim C3: a line whose location field has three
colon-separated components that are not integer literals is not silently
skipped — `int('a')` raises ValueError and `parse_morphology` fails. -/
theorem parse_morphology_nonnumeric_location_raises :
    parse_morphology "a:b:c\tx\ty\tROOT:x" = .error .valueError := by decide

/-- Claim C3 amended: a line with fewer than 4 tab-separated fields, or
whose location field has fewer than 3 colon-separated components, is
silently skipped — it contributes nothing and parsing continues with the
remaining lines — but a line whose location has at least 3 components with
a non-integer among the first three makes `parse_morphology` raise
ValueError instead of skipping. -/
theorem parse_morphology_skips_malformed_lines :
    (∀ line : String, (splitLine '\t' line).length < 4 → processLine line = .ok none) ∧
    (∀ line : String,
        (splitLine ':' ((splitLine '\t' line).getD 0 "")).length < 3 →
        processLine line = .ok none) ∧
    (∀ (line : String) (rest : List String) (acc : List (Key × Option String)),
        processLine line = .ok none →
        parseLines (line :: rest) acc = parseLines rest acc) ∧
    processLine "a:b:c\tx\ty\tROOT:x" = .error .valueError := by
  refine ⟨?_, ?_, ?_, by decide⟩
  · intro line h
    by_cases h0 : (line = "" || startsWithChars "#".data line.data) = true
    · simp [processLine, h0]
    · simp [processLine, h0, h]
  · intro line h
    by_cases h0 : (line = "" || startsWithChars "#".data line.data) = true
    · simp [processLine, h0]
    · by_cases h4 : (splitLine '\t' line).length < 4
      · simp [processLine, h0, h4]
      · simp only [List.getD_eq_getElem?_getD] at h
        simp [processLine, h0, h4]
        intro h3
        omega
  · intro line rest acc h
    unfold parseLines
    rw [h]
    cases rest <;> rfl

/-- Witness for the amended C3 at concrete malformed lines: one with a
single tab field, one with 4 fields but a 1-component location, and the
skip-continuation step. -/
theorem parse_morphology_skips_malformed_lines_witness :
    processLine "ab" = .ok none ∧
    processLine "a\tb\tc\td" = .ok none ∧
    parseLines ["ab", "x"] [] = parseLines ["x"] [] :=
  ⟨parse_morphology_skips_malformed_lines.1 "ab" (by decide),
   parse_morphology_skips_malformed_lines.2.1 "a\tb\tc\td" (by decide),
   parse_morphology_skips_malformed_lines.2.2.1 "ab" ["x"] []
     (parse_morphology_skips_malformed_lines.1 "ab" (by decide))⟩

/-- Claim C5: `update_database` folds `updateStep` over the mapping
entries; an entry whose key matches no row increments only the
`not_found` counter and leaves the table unchanged, and an entry whose
key matches at least one row increments the `updated` counter (every
matching row receiving the entry's root). -/
theorem update_database_counters (k : Key) (v : Option String) (t : List Row) (u nf : Nat) :
    (∀ m : List (Key × Option String), update_database m t = m.foldl updateStep (t, 0, 0)) ∧
    (t.countP (matchKey k) = 0 → updateStep (t, u, nf) (k, v) = (t, u, nf + 1)) ∧
    (0 < t.countP (matchKey k) →
        updateStep (t, u, nf) (k, v) =
          (t.map (fun r => if matchKey k r then { r with etymology := v } else r),
           u + 1, nf)) := by
  refine ⟨fun m => rfl, ?_, ?_⟩
  · intro h
    have hall : ∀ r ∈ t, ¬matchKey k r = true := List.countP_eq_zero.mp h
    have hmap : t.map (fun r => if matchKey k r then { r with etymology := v } else r) = t := by
      calc t.map (fun r => if matchKey k r then { r with etymology := v } else r)
          = t.map id := List.map_congr_left (fun r hr => by simp [hall r hr])
        _ = t := List.map_id t
    simp [updateStep, hmap, h]
  · intro h
    simp [updateStep, h]

/-- Witness for C5: a one-row table; the key (9,9,9) matches nothing, the
key (1,1,1) matches the row. -/
theorem update_database_counters_witness :
    updateStep ([⟨1, 1, 1, 1, "بِسْمِ", "In (the) name", "bismi", none⟩], 0, 0)
        (((9 : Int), (9 : Int), (9 : Int)), some "س-م-و") =
      ([⟨1, 1, 1, 1, "بِسْمِ", "In (the) name", "bismi", none⟩], 0, 1) ∧
    updateStep ([⟨1, 1, 1, 1, "بِسْمِ", "In (the) name", "bismi", none⟩], 0, 0)
        (((1 : Int), (1 : Int), (1 : Int)), some "س-م-و") =
      ([⟨1, 1, 1, 1, "بِسْمِ", "In (the) name", "bismi", some "س-م-و"⟩], 1, 0) := by
  constructor
  · exact (update_database_counters ((9 : Int), (9 : Int), (9 : Int)) (some "س-م-و")
      [⟨1, 1, 1, 1, "بِسْمِ", "In (the) name", "bismi", none⟩] 0 0).2.1 (by decide)
  · rw [(update_database_counters ((1 : Int), (1 : Int), (1 : Int)) (some "س-م-و")
      [⟨1, 1, 1, 1, "بِسْمِ", "In (the) name", "bismi", none⟩] 0 0).2.2 (by decide)]
    decide

/-- Claim C6: over three prompted words, the responses "skip", "ر-ح-م",
"quit" leave exactly the rows sharing the second word's arabic_text
updated to "ر-ح-م", leave every other row (in particular the first and
third words' rows) unchanged, halt at "quit" without consuming further
prompts, and the committed result (the `.ok` table) contains the one
applied change. -/
theorem interactive_skip_write_quit (a1 a2 a3 x1 x2 x3 y1 y2 y3 : String) (t : List Row) :
    interactive_mode [(a1, x1, y1), (a2, x2, y2), (a3, x3, y3)] ["skip", "ر-ح-م", "quit"] t =
      .ok (t.map (fun r =>
        if r.arabic_text = a2 then { r with etymology := some "ر-ح-م" } else r)) := rfl

/-- Claim C10: each interactive response is stripped before it is
interpreted — the loop's behavior depends only on the stripped text, a
whitespace-only response acts as an empty response (continue without
writing), and the quit/skip comparisons apply to the stripped, lowercased
text. -/
theorem interactive_mode_cons (a x y : String) (ws : List (String × String × String))
    (i : String) (ins : List String) (t : List Row) :
    interactive_mode ((a, x, y) :: ws) (i :: ins) t =
      if pyLower (pyStrip i) = "quit" then .ok t
      else if (decide (pyLower (pyStrip i) = "skip") || decide (pyStrip i = "")) = true then
        interactive_mode ws ins t
      else
        interactive_mode ws ins (t.map (fun r =>
          if r.arabic_text = a then { r with etymology := some (pyStrip i) } else r)) := rfl

theorem interactive_strips_responses (a x y : String) (ws : List (String × String × String))
    (i i2 : String) (ins : List String) (t : List Row) :
    (pyStrip i = pyStrip i2 →
        interactive_mode ((a, x, y) :: ws) (i :: ins) t =
          interactive_mode ((a, x, y) :: ws) (i2 :: ins) t) ∧
    (pyStrip i = "" →
        interactive_mode ((a, x, y) :: ws) (i :: ins) t = interactive_mode ws ins t) ∧
    (pyLower (pyStrip i) = "quit" →
        interactive_mode ((a, x, y) :: ws) (i :: ins) t = .ok t) ∧
    (pyLower (pyStrip i) = "skip" →
        interactive_mode ((a, x, y) :: ws) (i :: ins) t = interactive_mode ws ins t) ∧
    interactive_mode ((a, x, y) :: ws) (" \t " :: ins) t = interactive_mode ws ins t := by
  refine ⟨?_, ?_, ?_, ?_, ?_⟩
  · intro h
    rw [interactive_mode_cons, interactive_mode_cons, h]
  · intro h
    rw [interactive_mode_cons, h]
    simp [pyLower]
  · intro h
    rw [interactive_mode_cons, h]
    simp
  · intro h
    rw [interactive_mode_cons, h]
    simp
  · rfl

/-- Witness for C10 at concrete responses: "  QUIT " quits, "  SKIP "
skips, a whitespace-only response continues, and two responses that agree
after stripping behave alike. -/
theorem interactive_strips_responses_witness :
    (interactive_mode [("a", "t", "l")] ["  QUIT "] [] =
        interactive_mode [("a", "t", "l")] ["QUIT"] []) ∧
    interactive_mode [("a", "t", "l")] [" \t "] [] = interactive_mode [] [] [] ∧
    interactive_mode [("a", "t", "l")] ["  QUIT "] [] = .ok [] ∧
    interactive_mode [("a", "t", "l")] ["  SKIP "] [] = interactive_mode [] [] [] :=
  ⟨(interactive_strips_responses "a" "t" "l" [] "  QUIT " "QUIT" [] []).1 (by decide),
   (interactive_strips_responses "a" "t" "l" [] " \t " " \t " [] []).2.1 (by decide),
   (interactive_strips_responses "a" "t" "l" [] "  QUIT " "QUIT" [] []).2.2.1 (by decide),
   (interactive_strips_responses "a" "t" "l" [] "  SKIP " "SKIP" [] []).2.2.2.1 (by decide)⟩

/-- Claim C7: `update_from_csv` folds `csvStep` over the CSV rows; a row
whose etymology is absent or empty is skipped — no table change and no
contribution to the count — and a row with non-empty etymology performs
exactly the JSON-mode update step (broadcast by `arabic_text`). -/
theorem update_from_csv_skips_empty (st : List Row × Nat) (row : CSVRow) :
    (∀ (rows : List CSVRow) (t : List Row),
        update_from_csv rows t = rows.foldl csvStep (t, 0)) ∧
    (pyTruthy row.etymology = false → csvStep st row = st) ∧
    (∀ s : String, row.etymology = some s → ¬s = "" →
        csvStep st row = jsonStep st (row.arabic_text, s)) := by
  refine ⟨fun rows t => rfl, ?_, ?_⟩
  · intro h
    simp [csvStep, h]
  · intro s hs hne
    unfold csvStep jsonStep
    rw [hs]
    simp [pyTruthy, hne]

/-- Witness for C7: a one-row table; an empty-etymology CSV row is a
no-op, a non-empty one behaves as the JSON step. -/
theorem update_from_csv_skips_empty_witness :
    csvStep ([⟨1, 1, 1, 1, "ٱللَّهِ", "Allah", "allahi", some "old"⟩], 0)
        ⟨"ٱللَّهِ", some ""⟩ =
      ([⟨1, 1, 1, 1, "ٱللَّهِ", "Allah", "allahi", some "old"⟩], 0) ∧
    csvStep ([⟨1, 1, 1, 1, "ٱللَّهِ", "Allah", "allahi", some "old"⟩], 0)
        ⟨"ٱللَّهِ", some "أ-ل-ه"⟩ =
      jsonStep ([⟨1, 1, 1, 1, "ٱللَّهِ", "Allah", "allahi", some "old"⟩], 0)
        ("ٱللَّهِ", "أ-ل-ه") :=
  ⟨(update_from_csv_skips_empty ([⟨1, 1, 1, 1, "ٱللَّهِ", "Allah", "allahi", some "old"⟩], 0)
      ⟨"ٱللَّهِ", some ""⟩).2.1 (by decide),
   (update_from_csv_skips_empty ([⟨1, 1, 1, 1, "ٱللَّهِ", "Allah", "allahi", some "old"⟩], 0)
      ⟨"ٱللَّهِ", some "أ-ل-ه"⟩).2.2 "أ-ل-ه" rfl (by decide)⟩

theorem lookupKey_append_single (k k' : Key) (v : Option String)
    (l : List (Key × Option String)) :
    lookupKey k (l ++ [(k', v)]) =
      match lookupKey k l with
      | some w => some w
      | none => if k' = k then some v else none := by
  induction l with
  | nil => simp [lookupKey]
  | cons p l ih =>
    by_cases hp : p.1 = k
    · simp [lookupKey, hp]
    · simp [lookupKey, hp, ih]

theorem parseLines_lookup (k : Key) :
    ∀ (lines : List String) (acc m : List (Key × Option String)),
      parseLines lines acc = .ok m →
      lookupKey k m =
        match lookupKey k acc with
        | some w => some w
        | none => firstRoot lines k := by
  intro lines
  induction lines with
  | nil =>
    intro acc m h
    have hm : m = acc := by
      simpa [parseLines] using h.symm
    rw [hm]
    cases hl : lookupKey k acc <;> simp [hl, firstRoot]
  | cons line rest ih =>
    intro acc m h
    unfold parseLines at h
    cases hp : processLine line with
    | error e =>
      rw [hp] at h
      simp at h
    | ok o =>
      cases o with
      | none =>
        have h' : parseLines rest acc = .ok m := by
          rw [hp] at h
          exact h
        have hfr : firstRoot (line :: rest) k = firstRoot rest k := by
          unfold firstRoot
          rw [hp]
          cases rest <;> rfl
        rw [hfr]
        exact ih acc m h'
      | some kv =>
        obtain ⟨k', v⟩ := kv
        have h' : parseLines rest (if lookupKey k' acc = none then acc ++ [(k', v)] else acc)
            = .ok m := by
          rw [hp] at h
          exact h
        have hfr : firstRoot (line :: rest) k
            = if k' = k then some v else firstRoot rest k := by
          unfold firstRoot
          rw [hp]
          cases rest <;> rfl
        rw [hfr]
        by_cases hacc : lookupKey k' acc = none
        · rw [if_pos hacc] at h'
          have hres := ih _ m h'
          rw [lookupKey_append_single] at hres
          cases hl : lookupKey k acc <;> by_cases hk : k' = k <;>
            simpa [hl, hk] using hres
        · rw [if_neg hacc] at h'
          have hres := ih acc m h'
          cases hl : lookupKey k acc with
          | none =>
            by_cases hk : k' = k
            · subst hk
              exact absurd hl hacc
            · simpa [hl, hk] using hres
          | some w => simpa [hl] using hres

/-- Claim C2: when `parse_morphology` succeeds, every key of the mapping
holds the formatted root of the first line, in file order, carrying a
ROOT tag for that key — later ROOT tags for the same key are ignored. -/
theorem parse_morphology_first_root_wins (data : String)
    (m : List (Key × Option String)) (h : parse_morphology data = .ok m) (k : Key) :
    lookupKey k m = firstRoot (linesOf data) k := by
  have := parseLines_lookup k (linesOf data) [] m h
  simpa [lookupKey] using this

/-- Witness for C2: two segment lines at location 1:1:1, the first with
ROOT:رحم, the second with ROOT:علم; the parse succeeds and maps (1,1,1)
to ر-ح-م, the formatted root of the first line. -/
theorem parse_morphology_first_root_wins_witness :
    lookupKey ((1 : Int), (1 : Int), (1 : Int))
        [(((1 : Int), (1 : Int), (1 : Int)), some "ر-ح-م")] = some (some "ر-ح-م") := by
  have h : parse_morphology "1:1:1:1\tbis\tN\tROOT:رحم|LEM:x\n1:1:1:2\tmi\tN\tROOT:علم"
      = .ok [(((1 : Int), (1 : Int), (1 : Int)), some "ر-ح-م")] := by decide
  rw [parse_morphology_first_root_wins _ _ h ((1 : Int), (1 : Int), (1 : Int))]
  decide

theorem foldl_upsert_eq (es : List RootMeaning)
    (hnd : (es.map (fun e => e.root)).Nodup) :
    ∀ t : List RootMeaning,
      es.foldl insertOrReplace t
        = t.filter (fun r => decide (r.root ∉ es.map (fun e => e.root))) ++ es := by
  induction es with
  | nil => simp
  | cons e es ih =>
    intro t
    rw [List.map_cons, List.nodup_cons] at hnd
    obtain ⟨h1, h2⟩ := hnd
    rw [List.foldl_cons, ih h2, insertOrReplace, List.filter_append, List.filter_filter]
    have he : (decide (e.root ∉ es.map (fun e => e.root))) = true := decide_eq_true h1
    have harms : List.filter (fun r => decide (r.root ∉ es.map (fun e => e.root))) [e] = [e] := by
      simp only [List.filter, he]
    rw [harms]
    have hpred : ∀ r : RootMeaning,
        (decide (r.root ∉ es.map (fun e => e.root)) && !(r.root = e.root))
          = decide (r.root ∉ e.root :: es.map (fun e => e.root)) := by
      intro r
      by_cases hr1 : r.root = e.root <;> by_cases hr2 : r.root ∈ es.map (fun e => e.root) <;>
        simp [hr1, hr2]
    simp only [hpred]
    simp

theorem upsert_catalog_filter_self :
    ROOT_MEANINGS.filter
        (fun r => decide (r.root ∉ ROOT_MEANINGS.map (fun e => e.root))) = [] := by
  decide

/-- Claim C8: the seeder's insert is an upsert keyed on `root`: running
`populate_root_meanings` twice leaves exactly the rows of a single run
(for any starting table), and a single run over the empty table yields
one row per catalog entry, the root keys being pairwise distinct. -/
theorem populate_root_meanings_idempotent :
    (∀ t : List RootMeaning,
        populate_root_meanings (populate_root_meanings t) = populate_root_meanings t) ∧
    (populate_root_meanings []).length = ROOT_MEANINGS.length ∧
    ((populate_root_meanings []).map (fun e => e.root)).Nodup := by
  have hnd : (ROOT_MEANINGS.map (fun e => e.root)).Nodup := by decide
  refine ⟨?_, by decide, by decide⟩
  intro t
  unfold populate_root_meanings
  rw [foldl_upsert_eq ROOT_MEANINGS hnd t, foldl_upsert_eq ROOT_MEANINGS hnd,
    List.filter_append, upsert_catalog_filter_self, List.filter_filter]
  have hpred : ∀ r : RootMeaning,
      (decide (r.root ∉ ROOT_MEANINGS.map (fun e => e.root)) &&
        decide (r.root ∉ ROOT_MEANINGS.map (fun e => e.root)))
        = decide (r.root ∉ ROOT_MEANINGS.map (fun e => e.root)) := by
    intro r
    exact Bool.and_self _
  simp only [hpred]
  simp

theorem rootSearch_some_ne_nil :
    ∀ l cap : List Char, rootSearch l = some cap → cap ≠ [] := by
  intro l
  induction l with
  | nil =>
    intro cap h
    simp [rootSearch] at h
  | cons c rest ih =>
    intro cap h
    unfold rootSearch at h
    by_cases hs : startsWithChars "ROOT:".data (c :: rest) = true
    · rw [if_pos hs] at h
      cases hd : (c :: rest).drop 5 with
      | nil =>
        rw [hd] at h
        exact ih cap h
      | cons a after =>
        rw [hd] at h
        have h' : (if a = '|' then rootSearch rest
            else some ((a :: after).takeWhile (fun x => !(x = '|')))) = some cap := h
        by_cases ha : a = '|'
        · rw [if_pos ha] at h'
          exact ih cap h'
        · rw [if_neg ha] at h'
          have hcap : (a :: after).takeWhile (fun x => !(x = '|')) = cap := by
            simpa using h'
          rw [← hcap]
          simp [List.takeWhile_cons, ha]
    · rw [if_neg hs] at h
      exact ih cap h

theorem processLine_root_value (line : String) (k : Key) (v : Option String)
    (h : processLine line = .ok (some (k, v))) : ∃ s, v = some s ∧ ¬s = "" := by
  unfold processLine at h
  by_cases h0 : (line = "" || startsWithChars "#".data line.data) = true
  · rw [if_pos h0] at h
    simp at h
  · rw [if_neg h0] at h
    by_cases h4 : (splitLine '\t' line).length < 4
    · rw [if_pos h4] at h
      simp at h
    · rw [if_neg h4] at h
      by_cases h3 : (splitLine ':' ((splitLine '\t' line).getD 0 "")).length < 3
      · rw [if_pos h3] at h
        simp at h
      · rw [if_neg h3] at h
        cases e1 : pyInt ((splitLine ':' ((splitLine '\t' line).getD 0 "")).getD 0 "") with
        | error e =>
          rw [e1] at h
          simp at h
        | ok sura =>
          rw [e1] at h
          cases e2 : pyInt ((splitLine ':' ((splitLine '\t' line).getD 0 "")).getD 1 "") with
          | error e =>
            rw [e2] at h
            simp at h
          | ok ayah =>
            rw [e2] at h
            cases e3 : pyInt ((splitLine ':' ((splitLine '\t' line).getD 0 "")).getD 2 "") with
            | error e =>
              rw [e3] at h
              simp at h
            | ok wp =>
              rw [e3] at h
              cases e4 : rootSearch ((splitLine '\t' line).getD 3 "").data with
              | none =>
                rw [e4] at h
                simp at h
              | some cap =>
                rw [e4] at h
                have h' : ((sura, ayah, wp), format_root (some (String.mk cap))) = (k, v) := by
                  simpa using h
                have hv : format_root (some (String.mk cap)) = v := congrArg Prod.snd h'
                have hne : cap ≠ [] := rootSearch_some_ne_nil _ cap e4
                have hmk : ¬(String.mk cap = "") := fun hh => hne (congrArg String.data hh)
                refine ⟨String.mk (cap.intersperse '-'), ?_, ?_⟩
                · rw [← hv]
                  simp [format_root, hmk]
                · intro hh
                  exact intersperse_ne_nil '-' cap hne (congrArg String.data hh)

theorem parseLines_values :
    ∀ (lines : List String) (acc m : List (Key × Option String)),
      (∀ kv ∈ acc, ∃ s, kv.2 = some s ∧ ¬s = "") →
      parseLines lines acc = .ok m →
      ∀ kv ∈ m, ∃ s, kv.2 = some s ∧ ¬s = "" := by
  intro lines
  induction lines with
  | nil =>
    intro acc m hacc h
    have hm : m = acc := by
      simpa [parseLines] using h.symm
    rw [hm]
    exact hacc
  | cons line rest ih =>
    intro acc m hacc h
    unfold parseLines at h
    cases hp : processLine line with
    | error e =>
      rw [hp] at h
      simp at h
    | ok o =>
      cases o with
      | none =>
        refine ih acc m hacc ?_
        rw [hp] at h
        exact h
      | some kv =>
        obtain ⟨k', v⟩ := kv
        have h' : parseLines rest (if lookupKey k' acc = none then acc ++ [(k', v)] else acc)
            = .ok m := by
          rw [hp] at h
          exact h
        have hv := processLine_root_value line k' v hp
        by_cases hl : lookupKey k' acc = none
        · rw [if_pos hl] at h'
          refine ih _ m ?_ h'
          intro kv hkv
          rcases List.mem_append.mp hkv with hmem | hmem
          · exact hacc kv hmem
          · have hkv' : kv = (k', v) := by simpa using hmem
            rw [hkv']
            exact hv
        · rw [if_neg hl] at h'
          exact ih acc m hacc h'

theorem foldl_updateStep_inv :
    ∀ m : List (Key × Option String),
      (∀ kv ∈ m, ∃ s, kv.2 = some s ∧ ¬s = "") →
      ∀ st : List Row × Nat × Nat,
        (m.foldl updateStep st).1.length = st.1.length ∧
        ∀ i (h1 : i < st.1.length) (h2 : i < (m.foldl updateStep st).1.length),
          ((m.foldl updateStep st).1[i]).etymology = (st.1[i]).etymology ∨
          ∃ s, ((m.foldl updateStep st).1[i]).etymology = some s ∧ ¬s = "" := by
  intro m
  induction m with
  | nil =>
    intro hm st
    exact ⟨rfl, fun i h1 h2 => Or.inl rfl⟩
  | cons e m ihm =>
    intro hm st
    have hm' : ∀ kv ∈ m, ∃ s, kv.2 = some s ∧ ¬s = "" :=
      fun kv hkv => hm kv (List.mem_cons_of_mem _ hkv)
    have hstep : (updateStep st e).1
        = st.1.map (fun r => if matchKey e.1 r then { r with etymology := e.2 } else r) := rfl
    obtain ⟨hlen, hpt⟩ := ihm hm' (updateStep st e)
    rw [List.foldl_cons]
    constructor
    · rw [hlen, hstep, List.length_map]
    · intro i h1 h2
      have h1' : i < (updateStep st e).1.length := by
        rw [hstep, List.length_map]
        exact h1
      have hv : ∃ s, e.2 = some s ∧ ¬s = "" := hm e (List.mem_cons_self e m)
      rcases hpt i h1' h2 with hcase | hcase
      · rw [hcase]
        have hmap : ((updateStep st e).1)[i] =
            (fun r => if matchKey e.1 r then { r with etymology := e.2 } else r) (st.1[i]) :=
          List.getElem_map _
        rw [hmap]
        by_cases hmk : matchKey e.1 (st.1[i]) = true
        · right
          obtain ⟨s, hs1, hs2⟩ := hv
          exact ⟨s, by simp [hmk, hs1], hs2⟩
        · left
          simp [hmk]
      · right
        exact hcase

/-- Claim C9: every value of the mapping produced by a successful
`parse_morphology` is `some` of a non-empty dash-joined string (the ROOT
capture is non-empty and `format_root` of a non-empty string is
non-empty), so `update_database` never writes NULL or the empty string
into the etymology column: every row of the committed table either keeps
its previous etymology or holds a non-empty string. -/
theorem parse_morphology_never_clears (data : String)
    (m : List (Key × Option String)) (t : List Row)
    (h : parse_morphology data = .ok m) :
    (∀ kv ∈ m, ∃ s, kv.2 = some s ∧ ¬s = "") ∧
    (update_database m t).1.length = t.length ∧
    ∀ i (h1 : i < t.length) (h2 : i < (update_database m t).1.length),
      ((update_database m t).1[i]).etymology = (t[i]).etymology ∨
      ∃ s, ((update_database m t).1[i]).etymology = some s ∧ ¬s = "" := by
  have hv := parseLines_values (linesOf data) [] m (by simp) h
  obtain ⟨hlen, hpt⟩ := foldl_updateStep_inv m hv (t, 0, 0)
  exact ⟨hv, hlen, hpt⟩

/-- Witness for C9: a one-line morphology input whose root is قول applied
to a one-row table. -/
theorem parse_morphology_never_clears_witness :
    (update_database [(((2 : Int), (2 : Int), (2 : Int)), some "ق-و-ل")]
        [⟨5, 2, 2, 2, "قل", "say", "qul", some "x"⟩]).1.length = 1 :=
  (parse_morphology_never_clears "2:2:2:1\tqul\tV\tROOT:قول|LEM:y"
      [(((2 : Int), (2 : Int), (2 : Int)), some "ق-و-ل")]
      [⟨5, 2, 2, 2, "قل", "say", "qul", some "x"⟩] (by decide)).2.1

end QuranScripts
